import Mathlib

/-!
Verification development for the binary weather point-cloud protocol of the
`under-the-cloud` repository.

The frontend decoder lives in `src/utils/weatherParser.js`.  Byte buffers are
modelled as `List Nat` (one entry per byte).  IEEE-754 single-precision floats
are modelled by their 32-bit little-endian bit patterns (a `Nat` below `2^32`);
the partial function `f32scaled` maps a finite bit pattern to the integer `M`
with denoted value `M * 2^(-149)`, an order-isomorphic exact denotation, so
`f32leB`/`f32ltB` below are the IEEE `<=`/`<` on finite float values.  Where
the rendering layer manipulates float values directly they are modelled as
exact rationals.

JavaScript runtime failures are explicit: `DataView.getUint32`/`getFloat32`
throw a `RangeError` when the read overruns the buffer, and the
`Float32Array(buffer, byteOffset, length)` constructor throws a `RangeError`
when the requested view overruns the buffer (or the offset is misaligned).
These two provenances are the constructors of `JsRangeError`, and exception
propagation is the `Except` monad.
-/

namespace UnderTheCloud

/-- Read the unsigned 32-bit little-endian word whose first byte sits at
offset `off` of the buffer.  For a genuine byte buffer (entries < 256) this is
exactly the value `DataView.getUint32(off, true)` returns, and also the bit
pattern `DataView.getFloat32(off, true)` reinterprets. -/
def readWord32LE (buf : List Nat) (off : Nat) : Nat :=
  buf.getD off 0 + 256 * buf.getD (off + 1) 0 + 65536 * buf.getD (off + 2) 0 +
    16777216 * buf.getD (off + 3) 0

/-- The four little-endian bytes of a 32-bit word. -/
def writeWord32LE (w : Nat) : List Nat :=
  [w % 256, w / 256 % 256, w / 65536 % 256, w / 16777216 % 256]

/-- The two provenances of `RangeError` inside `parseWeatherBinary`:
`dataViewOOB` is thrown by the header reads (`DataView.getUint32` /
`DataView.getFloat32` past the end of the buffer), `typedArrayOOB` by a
`Float32Array(buffer, byteOffset, length)` view constructor whose requested
window does not fit in the buffer. -/
inductive JsRangeError where
  | dataViewOOB
  | typedArrayOOB
deriving DecidableEq

/-- `DataView.getUint32(off, true)` on a buffer: the read covers bytes
`[off, off+4)` and throws a `RangeError` when that overruns the buffer. -/
def getUint32 (buf : List Nat) (off : Nat) : Except JsRangeError Nat :=
  if off + 4 ≤ buf.length then Except.ok (readWord32LE buf off)
  else Except.error JsRangeError.dataViewOOB

/-- `DataView.getFloat32(off, true)`; the result is the 32-bit pattern of the
float (floats are represented by their bit patterns throughout). -/
def getFloat32 (buf : List Nat) (off : Nat) : Except JsRangeError Nat :=
  if off + 4 ≤ buf.length then Except.ok (readWord32LE buf off)
  else Except.error JsRangeError.dataViewOOB

/-- `new Float32Array(buffer, byteOffset, length)`: a zero-copy view of
`length` consecutive 32-bit floats starting at `byteOffset`.  JavaScript
throws a `RangeError` unless `byteOffset` is 4-aligned and
`byteOffset + 4*length` fits in the buffer.  Element `i` of the view is the
32-bit word at byte offset `byteOffset + 4*i` (little-endian platform, the
byte order the wire format documents). -/
def float32ArrayView (buf : List Nat) (byteOffset len : Nat) :
    Except JsRangeError (List Nat) :=
  if byteOffset % 4 = 0 ∧ byteOffset + 4 * len ≤ buf.length then
    Except.ok ((List.range len).map fun i => readWord32LE buf (byteOffset + 4 * i))
  else Except.error JsRangeError.typedArrayOOB

/-- `const HEADER_SIZE = 8` from `src/utils/weatherParser.js`. -/
def HEADER_SIZE : Nat := 8

/-- The object `{ count, maxVal, lats, lons, vals }` returned by
`parseWeatherBinary` on success; the float arrays are lists of 32-bit bit
patterns. -/
structure ParsedWeather where
  count : Nat
  maxVal : Nat
  lats : List Nat
  lons : List Nat
  vals : List Nat
deriving DecidableEq

/-- A non-exceptional return value of `parseWeatherBinary`: either the JS
value `null` (returned when `count === 0`) or the parsed object. -/
inductive ParseResult where
  | nullResult
  | parsed (p : ParsedWeather)
deriving DecidableEq

/-- The body of `parseWeatherBinary` from `src/utils/weatherParser.js`,
applied to the byte buffer obtained from the response: read `count` and
`maxVal` from the 8-byte header, return `null` when `count === 0`, otherwise
build the three zero-copy `Float32Array` views
(`lats` at byte offset 8, `lons` at `8 + 4*count`, `vals` at `8 + 8*count`,
each of `count` elements).  A thrown `RangeError` propagates. -/
def parseWeatherBinaryBuf (buf : List Nat) : Except JsRangeError ParseResult :=
  match getUint32 buf 0 with
  | Except.error e => Except.error e
  | Except.ok count =>
    match getFloat32 buf 4 with
    | Except.error e => Except.error e
    | Except.ok maxVal =>
      if count = 0 then Except.ok ParseResult.nullResult
      else
        let bytesPerArray := count * 4
        match float32ArrayView buf HEADER_SIZE count with
        | Except.error e => Except.error e
        | Except.ok lats =>
          match float32ArrayView buf (HEADER_SIZE + bytesPerArray) count with
          | Except.error e => Except.error e
          | Except.ok lons =>
            match float32ArrayView buf (HEADER_SIZE + bytesPerArray * 2) count with
            | Except.error e => Except.error e
            | Except.ok vals =>
              Except.ok (ParseResult.parsed ⟨count, maxVal, lats, lons, vals⟩)

/-- The exported `parseWeatherBinary(url)`: it first performs
`fetch(url)` / `response.arrayBuffer()` and only then decodes the received
bytes.  The network is modelled as an explicit environment `fetchBytes`
mapping a URL to the bytes the fetch delivers. -/
def parseWeatherBinary (fetchBytes : String → List Nat) (url : String) :
    Except JsRangeError ParseResult :=
  parseWeatherBinaryBuf (fetchBytes url)

/-- Does a decode outcome expose a parsed structure (as opposed to `null` or
a thrown error)? -/
def isParsedResult : Except JsRangeError ParseResult → Bool
  | Except.ok (ParseResult.parsed _) => true
  | _ => false

deriving instance DecidableEq for Except

/-- `DataView.getUint32` with the buffer threaded as explicit state: the read
performs no store, so it returns the buffer unchanged. -/
def getUint32ST (buf : List Nat) (off : Nat) : Except JsRangeError Nat × List Nat :=
  (getUint32 buf off, buf)

/-- `DataView.getFloat32` with the buffer threaded as explicit state. -/
def getFloat32ST (buf : List Nat) (off : Nat) : Except JsRangeError Nat × List Nat :=
  (getFloat32 buf off, buf)

/-- `Float32Array` view construction with the buffer threaded as explicit
state: constructing a zero-copy view writes no byte of the backing buffer. -/
def float32ArrayViewST (buf : List Nat) (byteOffset len : Nat) :
    Except JsRangeError (List Nat) × List Nat :=
  (float32ArrayView buf byteOffset len, buf)

/-- `parseWeatherBinary`'s buffer phase with the buffer threaded as explicit
state through every primitive operation the source performs on it, in source
order.  The second component is the buffer as it stands when the function
returns (or the exception escapes). -/
def parseWeatherBinaryST (buf0 : List Nat) : Except JsRangeError ParseResult × List Nat :=
  match getUint32ST buf0 0 with
  | (Except.error e, buf1) => (Except.error e, buf1)
  | (Except.ok count, buf1) =>
    match getFloat32ST buf1 4 with
    | (Except.error e, buf2) => (Except.error e, buf2)
    | (Except.ok maxVal, buf2) =>
      if count = 0 then (Except.ok ParseResult.nullResult, buf2)
      else
        let bytesPerArray := count * 4
        match float32ArrayViewST buf2 HEADER_SIZE count with
        | (Except.error e, buf3) => (Except.error e, buf3)
        | (Except.ok lats, buf3) =>
          match float32ArrayViewST buf3 (HEADER_SIZE + bytesPerArray) count with
          | (Except.error e, buf4) => (Except.error e, buf4)
          | (Except.ok lons, buf4) =>
            match float32ArrayViewST buf4 (HEADER_SIZE + bytesPerArray * 2) count with
            | (Except.error e, buf5) => (Except.error e, buf5)
            | (Except.ok vals, buf5) =>
              (Except.ok (ParseResult.parsed ⟨count, maxVal, lats, lons, vals⟩), buf5)

/-- Scaled-integer denotation of a float32 bit pattern: a finite pattern `w`
denotes the real number `f32scaled w * 2 ^ (-149)`.  Normal numbers
(`1 ≤ e ≤ 254`) denote `±(2^23 + m) * 2^(e-127) / 2^23 = ±(2^23+m) * 2^(e-1) * 2^(-149)`,
subnormals (`e = 0`) denote `±m * 2^(-149)`, and `e = 255` (infinities and
NaNs) has no finite denotation.  On finite floats the IEEE comparison
operators order exactly by this integer, so `f32leB`/`f32ltB` below are the
JavaScript `<=`/`<` on the denoted float values. -/
def f32scaled (w : Nat) : Option ℤ :=
  let v := w % 4294967296
  let s := v / 2147483648
  let e := v / 8388608 % 256
  let m := v % 8388608
  if e = 255 then none
  else
    let mag : ℤ := if e = 0 then m else (8388608 + m) * 2 ^ (e - 1)
    some (if s = 1 then -mag else mag)

/-- IEEE `<=` restricted to finite float32 values (false when either side is
NaN or infinite, which never arises in the statements below). -/
def f32leB (a b : Nat) : Bool :=
  match f32scaled a, f32scaled b with
  | some x, some y => decide (x ≤ y)
  | _, _ => false

/-- IEEE `<` restricted to finite float32 values. -/
def f32ltB (a b : Nat) : Bool :=
  match f32scaled a, f32scaled b with
  | some x, some y => decide (x < y)
  | _, _ => false

/-- Modelled from the spec: one input sample of the producer-side encoder
(latitude, longitude, intensity), each field a float32 bit pattern.  The
encoder itself is backend code that is not under `src/`. -/
structure Sample where
  lat : Nat
  lon : Nat
  val : Nat
deriving DecidableEq

/-- Modelled from the spec: `maxValue` is computed as the maximum intensity
across all input samples, emitted as `0.0` when there are none. -/
def maxValBits (samples : List Sample) : Nat :=
  samples.foldl (fun acc s => if f32ltB acc s.val then s.val else acc) 0

/-- Modelled from the spec: the serialized latitude block — each sample's
latitude as four little-endian bytes, in sample order. -/
def latBytes (samples : List Sample) : List Nat :=
  ((samples.map fun s => s.lat).map writeWord32LE).flatten

/-- Modelled from the spec: the serialized longitude block. -/
def lonBytes (samples : List Sample) : List Nat :=
  ((samples.map fun s => s.lon).map writeWord32LE).flatten

/-- Modelled from the spec: the serialized intensity block. -/
def valBytes (samples : List Sample) : List Nat :=
  ((samples.map fun s => s.val).map writeWord32LE).flatten

/-- Modelled from the spec: the producer-side encoder (section 4.1, backend
code not under `src/`): an 8-byte header (`count` as little-endian uint32,
`maxValue` as little-endian float32) followed by the three contiguous
little-endian float32 arrays — latitudes, longitudes, intensities — in that
order. -/
def encodeWeather (samples : List Sample) : List Nat :=
  writeWord32LE samples.length ++ writeWord32LE (maxValBits samples) ++
    latBytes samples ++ lonBytes samples ++ valBytes samples

/-- One element pushed onto `simplePoints` in `CloudMap`'s `load`: the
`position` triple `[lon, lat, altitude]` and the sample's `value`.  Numeric
values are modelled as exact rationals standing for the finite float values
the code manipulates (IEEE comparison on finite floats coincides with the
rational order of their denoted values). -/
structure PlotPoint where
  position : List ℚ
  value : ℚ
deriving DecidableEq

/-- The inline minimum-intensity threshold `0.2` of `CloudMap`'s `load` loop
(`if (val < 0.2) continue`).  `1/5` and the IEEE double written `0.2` differ
by less than `2^-54`, far below the spacing of the float32 intensities being
compared, so the comparison predicate is unchanged. -/
def RENDER_THRESHOLD : ℚ := 1 / 5

/-- The filtering loop of `CloudMap.load` (src/unnamed/part_001): iterate
`i = 0 .. count-1` over the decoded parallel arrays; skip the sample when
`vals[i] < threshold`; otherwise push
`{ position: [lons[i], lats[i], 15000 + vals[i]*300], value: vals[i] }`.
The loop's debug-only running peak (`maxVal`) does not affect the retained
collection and is omitted. -/
def cloudMapLoadPoints (threshold : ℚ) (lats lons vals : List ℚ) (count : Nat) :
    List PlotPoint :=
  (List.range count).foldl
    (fun simplePoints i =>
      let val := vals.getD i 0
      if val < threshold then simplePoints
      else simplePoints ++ [⟨[lons.getD i 0, lats.getD i 0, 15000 + val * 300], val⟩])
    []

/-- Bit pattern of the canonical NaN: reading a JS typed array out of range
yields `undefined`, which a `Float32Array` store coerces to NaN.  (Under the
hypotheses of the interleaving claim no out-of-range read occurs.) -/
def nanBits : Nat := 2143289344

/-- One iteration of the `interleaveCoords` loop: store `lons[i]` at index
`i*2` and `lats[i]` at index `i*2 + 1`. -/
def interleaveStep (lats lons : List Nat) (interleaved : List Nat) (i : Nat) : List Nat :=
  (interleaved.set (i * 2) (lons.getD i nanBits)).set (i * 2 + 1) (lats.getD i nanBits)

/-- `interleaveCoords(lats, lons, count)` from `src/utils/weatherParser.js`:
allocate a zero-initialised `Float32Array(count * 2)` and run the loop body
`interleaveStep` for `i = 0 .. count-1`.  Elements are float32 bit
patterns. -/
def interleaveCoords (lats lons : List Nat) (count : Nat) : List Nat :=
  (List.range count).foldl (interleaveStep lats lons) (List.replicate (count * 2) 0)

/-- A 32-bit read within the left part of an appended buffer ignores the
appended tail. -/
theorem readWord32LE_append_left (buf extra : List Nat) (off : Nat)
    (h : off + 4 ≤ buf.length) :
    readWord32LE (buf ++ extra) off = readWord32LE buf off := by
  have h0 : off < buf.length := by omega
  have h1 : off + 1 < buf.length := by omega
  have h2 : off + 2 < buf.length := by omega
  have h3 : off + 3 < buf.length := by omega
  unfold readWord32LE
  simp [List.getD_eq_getElem?_getD, List.getElem?_append, h0, h1, h2, h3]

/-- A 32-bit read past an appended prefix reads the right part. -/
theorem readWord32LE_append_right (l1 l2 : List Nat) (k : Nat) :
    readWord32LE (l1 ++ l2) (l1.length + k) = readWord32LE l2 k := by
  unfold readWord32LE
  have e : ∀ j : Nat, (l1 ++ l2).getD (l1.length + k + j) 0 = l2.getD (k + j) 0 := by
    intro j
    rw [Nat.add_assoc]
    simp [List.getD_eq_getElem?_getD, List.getElem?_append_right (Nat.le_add_right _ _)]
  have e0 := e 0
  simp only [Nat.add_zero] at e0
  rw [e0, e 1, e 2, e 3]

/-- Reading back the four little-endian bytes of a word recovers the word
modulo `2^32`. -/
theorem readWord32LE_write (w : Nat) (rest : List Nat) :
    readWord32LE (writeWord32LE w ++ rest) 0 = w % 4294967296 := by
  unfold readWord32LE writeWord32LE
  simp only [List.cons_append, List.nil_append, List.getD_cons_zero, List.getD_cons_succ]
  omega

/-- Evaluation of the decoder when the declared count is zero: the source
returns the JS value `null`. -/
theorem parse_eq_null (buf : List Nat) (h8 : 8 ≤ buf.length)
    (hc : readWord32LE buf 0 = 0) :
    parseWeatherBinaryBuf buf = Except.ok ParseResult.nullResult := by
  have h1 : 0 + 4 ≤ buf.length := by omega
  have h2 : 4 + 4 ≤ buf.length := by omega
  simp only [parseWeatherBinaryBuf, getUint32, getFloat32, if_pos h1, if_pos h2, if_pos hc]

/-- Evaluation of the decoder on a buffer long enough for its declared
nonzero count: the parsed object, with each array spelled out as the reads it
aliases. -/
theorem parse_eval_ok (buf : List Nat) (hc : readWord32LE buf 0 ≠ 0)
    (hlen : 8 + 12 * readWord32LE buf 0 ≤ buf.length) :
    parseWeatherBinaryBuf buf = Except.ok (ParseResult.parsed
      ⟨readWord32LE buf 0, readWord32LE buf 4,
        (List.range (readWord32LE buf 0)).map fun i => readWord32LE buf (8 + 4 * i),
        (List.range (readWord32LE buf 0)).map fun i =>
          readWord32LE buf (8 + readWord32LE buf 0 * 4 + 4 * i),
        (List.range (readWord32LE buf 0)).map fun i =>
          readWord32LE buf (8 + readWord32LE buf 0 * 4 * 2 + 4 * i)⟩) := by
  have h1 : 0 + 4 ≤ buf.length := by omega
  have h2 : 4 + 4 ≤ buf.length := by omega
  have hA : 8 + 4 * readWord32LE buf 0 ≤ buf.length := by omega
  have hB : (8 + readWord32LE buf 0 * 4) % 4 = 0 ∧
      8 + readWord32LE buf 0 * 4 + 4 * readWord32LE buf 0 ≤ buf.length :=
    ⟨by omega, by omega⟩
  have hC : (8 + readWord32LE buf 0 * 4 * 2) % 4 = 0 ∧
      8 + readWord32LE buf 0 * 4 * 2 + 4 * readWord32LE buf 0 ≤ buf.length :=
    ⟨by omega, by omega⟩
  simp only [parseWeatherBinaryBuf, getUint32, getFloat32, float32ArrayView, HEADER_SIZE,
    true_and, if_pos h1, if_pos h2, if_neg hc, if_pos hA, if_pos hB, if_pos hC]

/-- The state-threaded decoder computes the same answer as the direct one and
hands the buffer back untouched. -/
theorem parseWeatherBinaryST_eq (buf : List Nat) :
    parseWeatherBinaryST buf = (parseWeatherBinaryBuf buf, buf) := by
  cases h1 : getUint32 buf 0 with
  | error e => simp [parseWeatherBinaryST, parseWeatherBinaryBuf, getUint32ST, h1]
  | ok c =>
    cases h2 : getFloat32 buf 4 with
    | error e =>
      simp [parseWeatherBinaryST, parseWeatherBinaryBuf, getUint32ST, getFloat32ST, h1, h2]
    | ok m =>
      by_cases hc : c = 0
      · simp [parseWeatherBinaryST, parseWeatherBinaryBuf, getUint32ST, getFloat32ST,
          h1, h2, hc]
      · cases h3 : float32ArrayView buf HEADER_SIZE c with
        | error e =>
          simp [parseWeatherBinaryST, parseWeatherBinaryBuf, getUint32ST, getFloat32ST,
            float32ArrayViewST, h1, h2, hc, h3]
        | ok lats =>
          cases h4 : float32ArrayView buf (HEADER_SIZE + c * 4) c with
          | error e =>
            simp [parseWeatherBinaryST, parseWeatherBinaryBuf, getUint32ST, getFloat32ST,
              float32ArrayViewST, h1, h2, hc, h3, h4]
          | ok lons =>
            cases h5 : float32ArrayView buf (HEADER_SIZE + c * 4 * 2) c with
            | error e =>
              simp [parseWeatherBinaryST, parseWeatherBinaryBuf, getUint32ST, getFloat32ST,
                float32ArrayViewST, h1, h2, hc, h3, h4, h5]
            | ok vals =>
              simp [parseWeatherBinaryST, parseWeatherBinaryBuf, getUint32ST, getFloat32ST,
                float32ArrayViewST, h1, h2, hc, h3, h4, h5]

/-- Claim C1: on any buffer long enough for its declared nonzero count, the
decoder returns a structure exposing `count`, `maxValue` (the little-endian
32-bit float at offset 4), and three sequences of length exactly `count`,
where position `i` of the latitudes, longitudes and intensities holds the
little-endian 32-bit float at byte offsets `8 + 4*i`, `8 + 4*count + 4*i` and
`8 + 8*count + 4*i` respectively — the three fields of the same original
sample. -/
theorem C1_decode_layout (buf : List Nat) (hc : 0 < readWord32LE buf 0)
    (hlen : 8 + 12 * readWord32LE buf 0 ≤ buf.length) :
    ∃ p : ParsedWeather,
      parseWeatherBinaryBuf buf = Except.ok (ParseResult.parsed p) ∧
      p.count = readWord32LE buf 0 ∧
      p.maxVal = readWord32LE buf 4 ∧
      p.lats.length = readWord32LE buf 0 ∧
      p.lons.length = readWord32LE buf 0 ∧
      p.vals.length = readWord32LE buf 0 ∧
      ∀ i, i < readWord32LE buf 0 →
        p.lats.getD i 0 = readWord32LE buf (8 + 4 * i) ∧
        p.lons.getD i 0 = readWord32LE buf (8 + 4 * readWord32LE buf 0 + 4 * i) ∧
        p.vals.getD i 0 = readWord32LE buf (8 + 8 * readWord32LE buf 0 + 4 * i) := by
  refine ⟨_, parse_eval_ok buf (by omega) hlen, rfl, rfl, by simp, by simp, by simp, ?_⟩
  intro i hi
  refine ⟨?_, ?_, ?_⟩ <;>
      simp only [List.getD_eq_getElem?_getD, List.getElem?_map, List.getElem?_range hi,
        Option.map_some', Option.getD_some] <;>
    (congr 1; omega)

/-- Witness for C1 on a concrete 20-byte buffer declaring one sample. -/
theorem C1_decode_layout_witness :
    0 < readWord32LE [1, 0, 0, 0, 0, 0, 0, 0, 1, 2, 3, 4, 5, 6, 7, 8, 9, 10, 11, 12] 0 ∧
      8 + 12 * readWord32LE [1, 0, 0, 0, 0, 0, 0, 0, 1, 2, 3, 4, 5, 6, 7, 8, 9, 10, 11, 12] 0 ≤
        ([1, 0, 0, 0, 0, 0, 0, 0, 1, 2, 3, 4, 5, 6, 7, 8, 9, 10, 11, 12] : List Nat).length ∧
      (∃ p : ParsedWeather,
        parseWeatherBinaryBuf [1, 0, 0, 0, 0, 0, 0, 0, 1, 2, 3, 4, 5, 6, 7, 8, 9, 10, 11, 12] =
          Except.ok (ParseResult.parsed p) ∧
        p.count = readWord32LE [1, 0, 0, 0, 0, 0, 0, 0, 1, 2, 3, 4, 5, 6, 7, 8, 9, 10, 11, 12] 0 ∧
        p.maxVal = readWord32LE [1, 0, 0, 0, 0, 0, 0, 0, 1, 2, 3, 4, 5, 6, 7, 8, 9, 10, 11, 12] 4 ∧
        p.lats.length = readWord32LE [1, 0, 0, 0, 0, 0, 0, 0, 1, 2, 3, 4, 5, 6, 7, 8, 9, 10, 11, 12] 0 ∧
        p.lons.length = readWord32LE [1, 0, 0, 0, 0, 0, 0, 0, 1, 2, 3, 4, 5, 6, 7, 8, 9, 10, 11, 12] 0 ∧
        p.vals.length = readWord32LE [1, 0, 0, 0, 0, 0, 0, 0, 1, 2, 3, 4, 5, 6, 7, 8, 9, 10, 11, 12] 0 ∧
        ∀ i, i < readWord32LE [1, 0, 0, 0, 0, 0, 0, 0, 1, 2, 3, 4, 5, 6, 7, 8, 9, 10, 11, 12] 0 →
          p.lats.getD i 0 =
            readWord32LE [1, 0, 0, 0, 0, 0, 0, 0, 1, 2, 3, 4, 5, 6, 7, 8, 9, 10, 11, 12] (8 + 4 * i) ∧
          p.lons.getD i 0 =
            readWord32LE [1, 0, 0, 0, 0, 0, 0, 0, 1, 2, 3, 4, 5, 6, 7, 8, 9, 10, 11, 12]
              (8 + 4 * readWord32LE [1, 0, 0, 0, 0, 0, 0, 0, 1, 2, 3, 4, 5, 6, 7, 8, 9, 10, 11, 12] 0 + 4 * i) ∧
          p.vals.getD i 0 =
            readWord32LE [1, 0, 0, 0, 0, 0, 0, 0, 1, 2, 3, 4, 5, 6, 7, 8, 9, 10, 11, 12]
              (8 + 8 * readWord32LE [1, 0, 0, 0, 0, 0, 0, 0, 1, 2, 3, 4, 5, 6, 7, 8, 9, 10, 11, 12] 0 + 4 * i)) :=
  ⟨by decide, by decide,
    C1_decode_layout [1, 0, 0, 0, 0, 0, 0, 0, 1, 2, 3, 4, 5, 6, 7, 8, 9, 10, 11, 12]
      (by decide) (by decide)⟩

/-- Claim C2: decoding any buffer shorter than the 8-byte header fails —
the failure is the `RangeError` thrown by the header reads
(`DataView.getUint32` when the buffer is shorter than 4 bytes,
`DataView.getFloat32` at offset 4 otherwise), and no result value is
produced. -/
theorem C2_truncated_header (buf : List Nat) (h : buf.length < 8) :
    parseWeatherBinaryBuf buf = Except.error JsRangeError.dataViewOOB := by
  unfold parseWeatherBinaryBuf getUint32 getFloat32
  by_cases h4 : 0 + 4 ≤ buf.length
  · rw [if_pos h4, if_neg (by omega)]
  · rw [if_neg h4]

/-- Witness for C2 at the concrete 5-byte buffer `[1,0,0,0,0]`. -/
theorem C2_truncated_header_witness :
    ([1, 0, 0, 0, 0] : List Nat).length < 8 ∧
      parseWeatherBinaryBuf [1, 0, 0, 0, 0] = Except.error JsRangeError.dataViewOOB :=
  ⟨by decide, C2_truncated_header [1, 0, 0, 0, 0] (by decide)⟩

/-- Claim C3: if the buffer holds a full header but fewer than
`8 + 12*count` bytes for its declared `count`, decoding fails — here with the
`RangeError` thrown by the first `Float32Array` view constructor whose window
overruns the buffer — and the `Except` result carries no partial data. -/
theorem C3_truncated_body (buf : List Nat) (h8 : 8 ≤ buf.length)
    (hlen : buf.length < 8 + 12 * readWord32LE buf 0) :
    parseWeatherBinaryBuf buf = Except.error JsRangeError.typedArrayOOB := by
  have hc : readWord32LE buf 0 ≠ 0 := by omega
  have h1 : 0 + 4 ≤ buf.length := by omega
  have h2 : 4 + 4 ≤ buf.length := by omega
  by_cases hA : 8 + 4 * readWord32LE buf 0 ≤ buf.length
  · by_cases hB : (8 + readWord32LE buf 0 * 4) % 4 = 0 ∧
        8 + readWord32LE buf 0 * 4 + 4 * readWord32LE buf 0 ≤ buf.length
    · have hC : ¬ ((8 + readWord32LE buf 0 * 4 * 2) % 4 = 0 ∧
          8 + readWord32LE buf 0 * 4 * 2 + 4 * readWord32LE buf 0 ≤ buf.length) := by
        omega
      simp only [parseWeatherBinaryBuf, getUint32, getFloat32, float32ArrayView,
        HEADER_SIZE, true_and, if_pos h1, if_pos h2, if_neg hc, if_pos hA, if_pos hB,
        if_neg hC]
    · simp only [parseWeatherBinaryBuf, getUint32, getFloat32, float32ArrayView,
        HEADER_SIZE, true_and, if_pos h1, if_pos h2, if_neg hc, if_pos hA, if_neg hB]
  · simp only [parseWeatherBinaryBuf, getUint32, getFloat32, float32ArrayView,
      HEADER_SIZE, true_and, if_pos h1, if_pos h2, if_neg hc, if_neg hA]

/-- Witness for C3: a 12-byte buffer declaring `count = 1` (needs 20 bytes). -/
theorem C3_truncated_body_witness :
    8 ≤ ([1, 0, 0, 0, 0, 0, 0, 0, 0, 0, 0, 0] : List Nat).length ∧
      ([1, 0, 0, 0, 0, 0, 0, 0, 0, 0, 0, 0] : List Nat).length <
        8 + 12 * readWord32LE [1, 0, 0, 0, 0, 0, 0, 0, 0, 0, 0, 0] 0 ∧
      parseWeatherBinaryBuf [1, 0, 0, 0, 0, 0, 0, 0, 0, 0, 0, 0] =
        Except.error JsRangeError.typedArrayOOB :=
  ⟨by decide, by decide,
    C3_truncated_body [1, 0, 0, 0, 0, 0, 0, 0, 0, 0, 0, 0] (by decide) (by decide)⟩

/-- Counterexample to claim C4: on the 8-byte buffer with `count = 0` the
decoder returns the JS value `null` — a sentinel — not a structure with
`count = 0`, the header `maxValue` and three empty sequences. -/
theorem C4_counterexample :
    parseWeatherBinaryBuf [0, 0, 0, 0, 0, 0, 0, 0] = Except.ok ParseResult.nullResult ∧
      isParsedResult (parseWeatherBinaryBuf [0, 0, 0, 0, 0, 0, 0, 0]) = false :=
  ⟨rfl, rfl⟩

/-- Claim C4 as amended: for every buffer of length at least 8 whose declared
`count` is 0, the decoder returns `null` (`ParseResult.nullResult`) — a
non-error sentinel distinct from every parsed structure — rather than an
empty structure exposing `count`, `maxValue` and three empty sequences. -/
theorem C4_count_zero_returns_null (buf : List Nat) (h8 : 8 ≤ buf.length)
    (hc : readWord32LE buf 0 = 0) :
    parseWeatherBinaryBuf buf = Except.ok ParseResult.nullResult := by
  have h1 : 0 + 4 ≤ buf.length := by omega
  have h2 : 4 + 4 ≤ buf.length := by omega
  simp only [parseWeatherBinaryBuf, getUint32, getFloat32, if_pos h1, if_pos h2, if_pos hc]

/-- Witness for the amended C4 at the all-zero 9-byte buffer. -/
theorem C4_count_zero_returns_null_witness :
    8 ≤ ([0, 0, 0, 0, 0, 0, 0, 0, 5] : List Nat).length ∧
      readWord32LE [0, 0, 0, 0, 0, 0, 0, 0, 5] 0 = 0 ∧
      parseWeatherBinaryBuf [0, 0, 0, 0, 0, 0, 0, 0, 5] = Except.ok ParseResult.nullResult :=
  ⟨by decide, by decide,
    C4_count_zero_returns_null [0, 0, 0, 0, 0, 0, 0, 0, 5] (by decide) (by decide)⟩

/-- Counterexample to claim C5: `parseWeatherBinary` is not a transform of a
byte-buffer input — its argument is a URL and its first action is a network
fetch.  With the same URL argument, two runs under different network
environments return different results, so the function's value is not
determined by its argument alone. -/
theorem C5_counterexample :
    parseWeatherBinary (fun _ => [0, 0, 0, 0, 0, 0, 0, 0]) "weather.bin" ≠
      parseWeatherBinary (fun _ => []) "weather.bin" := by
  decide

/-- Claim C5 as amended: the decoding that `parseWeatherBinary` applies to
the fetched bytes is a deterministic, side-effect-free transform — the result
depends only on the byte buffer the fetch delivered, so any two calls whose
fetches produce the same bytes return the same result; but the exported
function itself is asynchronous and performs the network fetch of its URL
argument before decoding. -/
theorem C5_decode_depends_only_on_bytes (f1 f2 : String → List Nat) (u1 u2 : String)
    (h : f1 u1 = f2 u2) :
    parseWeatherBinary f1 u1 = parseWeatherBinary f2 u2 := by
  unfold parseWeatherBinary
  rw [h]

/-- Witness for the amended C5 at a concrete fetch environment. -/
theorem C5_decode_depends_only_on_bytes_witness :
    (fun _ : String => ([0, 0, 0, 0, 0, 0, 0, 0] : List Nat)) "a" =
        (fun _ : String => ([0, 0, 0, 0, 0, 0, 0, 0] : List Nat)) "b" ∧
      parseWeatherBinary (fun _ => [0, 0, 0, 0, 0, 0, 0, 0]) "a" =
        parseWeatherBinary (fun _ => [0, 0, 0, 0, 0, 0, 0, 0]) "b" :=
  ⟨rfl, C5_decode_depends_only_on_bytes _ _ _ _ rfl⟩

/-- Claim C7: appending trailing bytes to a buffer of exactly the expected
length `8 + 12*count` leaves the decode result unchanged, and that result is
a success (never an error): only a buffer shorter than required is invalid. -/
theorem C7_trailing_bytes_tolerated (buf extra : List Nat)
    (hlen : buf.length = 8 + 12 * readWord32LE buf 0) :
    parseWeatherBinaryBuf (buf ++ extra) = parseWeatherBinaryBuf buf ∧
      ∃ r, parseWeatherBinaryBuf buf = Except.ok r := by
  have h8 : 8 ≤ buf.length := by omega
  have hr0 : readWord32LE (buf ++ extra) 0 = readWord32LE buf 0 :=
    readWord32LE_append_left _ _ _ (by omega)
  by_cases hc : readWord32LE buf 0 = 0
  · have h1 : parseWeatherBinaryBuf buf = Except.ok ParseResult.nullResult :=
      parse_eq_null buf h8 hc
    have h2 : parseWeatherBinaryBuf (buf ++ extra) = Except.ok ParseResult.nullResult :=
      parse_eq_null _ (by simp only [List.length_append]; omega) (by rw [hr0]; exact hc)
    exact ⟨by rw [h1, h2], _, h1⟩
  · have h1 := parse_eval_ok buf hc (by omega)
    have h2 := parse_eval_ok (buf ++ extra) (by rw [hr0]; exact hc)
      (by rw [hr0]; simp only [List.length_append]; omega)
    rw [hr0] at h2
    have hc4 : readWord32LE (buf ++ extra) 4 = readWord32LE buf 4 :=
      readWord32LE_append_left _ _ _ (by omega)
    refine ⟨?_, _, h1⟩
    rw [h1, h2]
    simp only [Except.ok.injEq, ParseResult.parsed.injEq, ParsedWeather.mk.injEq]
    refine ⟨trivial, hc4, ?_, ?_, ?_⟩ <;>
    · apply List.map_congr_left
      intro i hi
      rw [List.mem_range] at hi
      exact readWord32LE_append_left _ _ _ (by omega)

/-- Witness for C7: a 20-byte one-sample buffer with 5 trailing bytes. -/
theorem C7_trailing_bytes_tolerated_witness :
    ([1, 0, 0, 0, 0, 0, 0, 0, 1, 2, 3, 4, 5, 6, 7, 8, 9, 10, 11, 12] : List Nat).length =
        8 + 12 * readWord32LE [1, 0, 0, 0, 0, 0, 0, 0, 1, 2, 3, 4, 5, 6, 7, 8, 9, 10, 11, 12] 0 ∧
      (parseWeatherBinaryBuf
          ([1, 0, 0, 0, 0, 0, 0, 0, 1, 2, 3, 4, 5, 6, 7, 8, 9, 10, 11, 12] ++ [9, 9, 9, 9, 9]) =
        parseWeatherBinaryBuf [1, 0, 0, 0, 0, 0, 0, 0, 1, 2, 3, 4, 5, 6, 7, 8, 9, 10, 11, 12] ∧
      ∃ r, parseWeatherBinaryBuf [1, 0, 0, 0, 0, 0, 0, 0, 1, 2, 3, 4, 5, 6, 7, 8, 9, 10, 11, 12] =
        Except.ok r) :=
  ⟨by decide,
    C7_trailing_bytes_tolerated [1, 0, 0, 0, 0, 0, 0, 0, 1, 2, 3, 4, 5, 6, 7, 8, 9, 10, 11, 12]
      [9, 9, 9, 9, 9] (by decide)⟩

/-- Claim C9: decoding does not mutate the input buffer.  In the
state-threaded embedding, where every primitive the source applies to the
buffer passes the buffer state along, the final buffer equals the input
byte-for-byte — whether the decode succeeds, returns the empty-case `null`,
or fails — and the computed answer agrees with the pure decoder. -/
theorem C9_decode_does_not_mutate (buf : List Nat) :
    (parseWeatherBinaryST buf).2 = buf ∧
      (parseWeatherBinaryST buf).1 = parseWeatherBinaryBuf buf := by
  rw [parseWeatherBinaryST_eq]
  exact ⟨rfl, rfl⟩

/-- Claim C8: the `CloudMap.load` filtering loop keeps, in original order,
exactly the samples whose intensity is at or above the threshold (it skips
exactly those strictly below), dropped samples leave no trace in the retained
collection, and the retained count equals the number of input positions whose
intensity is at or above the threshold. -/
theorem C8_threshold_filtering (t : ℚ) (lats lons vals : List ℚ) (count : Nat) :
    cloudMapLoadPoints t lats lons vals count =
      ((List.range count).filter fun i => decide (t ≤ vals.getD i 0)).map
        (fun i =>
          ⟨[lons.getD i 0, lats.getD i 0, 15000 + vals.getD i 0 * 300], vals.getD i 0⟩) ∧
      (cloudMapLoadPoints t lats lons vals count).length =
        ((List.range count).filter fun i => decide (t ≤ vals.getD i 0)).length := by
  have main : ∀ n : Nat,
      cloudMapLoadPoints t lats lons vals n =
        ((List.range n).filter fun i => decide (t ≤ vals.getD i 0)).map
          (fun i =>
            ⟨[lons.getD i 0, lats.getD i 0, 15000 + vals.getD i 0 * 300],
              vals.getD i 0⟩) := by
    intro n
    induction n with
    | zero => rfl
    | succ n ih =>
      unfold cloudMapLoadPoints at ih ⊢
      rw [List.range_succ, List.foldl_append, List.filter_append, List.map_append, ih,
        List.foldl_cons, List.foldl_nil]
      rw [List.filter_cons]
      by_cases h : vals.getD n 0 < t
      · have hnle : ¬ t ≤ vals.getD n 0 := not_le.mpr h
        simp only [if_pos h, decide_eq_false hnle, Bool.false_eq_true, if_false,
          List.filter_nil, List.map_nil, List.append_nil]
      · have hle : t ≤ vals.getD n 0 := not_lt.mp h
        simp only [if_neg h, decide_eq_true hle, if_pos, List.filter_nil, List.map_cons,
          List.map_nil]
  exact ⟨main count, by rw [main count, List.length_map]⟩

/-- Instantiating the loop at its inline constant `0.2`: same statement for
the threshold the source hardcodes. -/
theorem cloudMapLoadPoints_at_source_threshold (lats lons vals : List ℚ) (count : Nat) :
    cloudMapLoadPoints RENDER_THRESHOLD lats lons vals count =
      ((List.range count).filter fun i => decide (RENDER_THRESHOLD ≤ vals.getD i 0)).map
        (fun i =>
          ⟨[lons.getD i 0, lats.getD i 0, 15000 + vals.getD i 0 * 300],
            vals.getD i 0⟩) := by
  have main : ∀ n : Nat,
      cloudMapLoadPoints RENDER_THRESHOLD lats lons vals n =
        ((List.range n).filter fun i => decide (RENDER_THRESHOLD ≤ vals.getD i 0)).map
          (fun i =>
            ⟨[lons.getD i 0, lats.getD i 0, 15000 + vals.getD i 0 * 300],
              vals.getD i 0⟩) := by
    intro n
    induction n with
    | zero => rfl
    | succ n ih =>
      unfold cloudMapLoadPoints at ih ⊢
      rw [List.range_succ, List.foldl_append, List.filter_append, List.map_append, ih,
        List.foldl_cons, List.foldl_nil]
      rw [List.filter_cons]
      by_cases h : vals.getD n 0 < RENDER_THRESHOLD
      · have hnle : ¬ RENDER_THRESHOLD ≤ vals.getD n 0 := not_le.mpr h
        simp only [if_pos h, decide_eq_false hnle, Bool.false_eq_true, if_false,
          List.filter_nil, List.map_nil, List.append_nil]
      · have hle : RENDER_THRESHOLD ≤ vals.getD n 0 := not_lt.mp h
        simp only [if_neg h, decide_eq_true hle, if_pos, List.filter_nil, List.map_cons,
          List.map_nil]
  exact main count

/-- `List.set` at one index leaves every other index unchanged (in `getD`
form). -/
theorem listGetD_set_ne {α : Type} (l : List α) (i j : Nat) (v d : α) (h : i ≠ j) :
    (l.set i v).getD j d = l.getD j d := by
  simp [List.getD_eq_getElem?_getD, List.getElem?_set_ne h]

/-- `List.set` at an in-range index stores the value (in `getD` form). -/
theorem listGetD_set_eq {α : Type} (l : List α) (i : Nat) (v d : α) (h : i < l.length) :
    (l.set i v).getD i d = v := by
  simp [List.getD_eq_getElem?_getD, List.getElem?_set_eq_of_lt _ h]

/-- For an in-range index the `getD` default does not matter. -/
theorem listGetD_default {α : Type} (l : List α) (i : Nat) (d1 d2 : α)
    (h : i < l.length) : l.getD i d1 = l.getD i d2 := by
  simp [List.getD_eq_getElem?_getD, List.getElem?_eq_getElem h]

/-- Running the interleave loop over `i = 0 .. n-1` on any array of
sufficient length preserves the length and leaves `lons[j]` at `j*2` and
`lats[j]` at `j*2 + 1` for every `j < n`. -/
theorem interleave_fold_spec (lats lons : List Nat) (n : Nat) :
    ∀ arr : List Nat, 2 * n ≤ arr.length →
      ((List.range n).foldl (interleaveStep lats lons) arr).length = arr.length ∧
      ∀ j, j < n →
        ((List.range n).foldl (interleaveStep lats lons) arr).getD (j * 2) 0 =
            lons.getD j nanBits ∧
          ((List.range n).foldl (interleaveStep lats lons) arr).getD (j * 2 + 1) 0 =
            lats.getD j nanBits := by
  induction n with
  | zero => exact fun arr _ => ⟨rfl, fun j hj => absurd hj (by omega)⟩
  | succ n ih =>
    intro arr hlen
    rw [List.range_succ, List.foldl_append, List.foldl_cons, List.foldl_nil]
    obtain ⟨ihlen, ihget⟩ := ih arr (by omega)
    have hmidlen : ((List.range n).foldl (interleaveStep lats lons) arr).length =
        arr.length := ihlen
    have hstep_len :
        (interleaveStep lats lons ((List.range n).foldl (interleaveStep lats lons) arr)
          n).length = arr.length := by
      simp [interleaveStep, hmidlen]
    refine ⟨hstep_len, ?_⟩
    intro j hj
    by_cases hjn : j = n
    · subst hjn
      constructor
      · rw [interleaveStep, listGetD_set_ne _ _ _ _ _ (by omega)]
        exact listGetD_set_eq _ _ _ _ (by rw [hmidlen]; omega)
      · rw [interleaveStep]
        exact listGetD_set_eq _ _ _ _ (by simp [hmidlen]; omega)
    · obtain ⟨g1, g2⟩ := ihget j (by omega)
      constructor
      · rw [interleaveStep, listGetD_set_ne _ _ _ _ _ (by omega),
          listGetD_set_ne _ _ _ _ _ (by omega)]
        exact g1
      · rw [interleaveStep, listGetD_set_ne _ _ _ _ _ (by omega),
          listGetD_set_ne _ _ _ _ _ (by omega)]
        exact g2

/-- Claim C10: for sequences long enough for `count`, `interleaveCoords`
returns an array of length exactly `2*count` with `lons[i]` at index `2*i`
and `lats[i]` at index `2*i + 1` — longitude first in each pair. -/
theorem C10_interleave_lon_first (lats lons : List Nat) (count : Nat)
    (hlat : count ≤ lats.length) (hlon : count ≤ lons.length) :
    (interleaveCoords lats lons count).length = 2 * count ∧
      ∀ i, i < count →
        (interleaveCoords lats lons count).getD (2 * i) 0 = lons.getD i 0 ∧
        (interleaveCoords lats lons count).getD (2 * i + 1) 0 = lats.getD i 0 := by
  obtain ⟨hl, hg⟩ := interleave_fold_spec lats lons count (List.replicate (count * 2) 0)
    (by simp [Nat.mul_comm])
  unfold interleaveCoords
  constructor
  · rw [hl]
    simp [Nat.mul_comm]
  · intro i hi
    obtain ⟨g1, g2⟩ := hg i hi
    rw [Nat.mul_comm 2 i]
    constructor
    · rw [g1]
      exact listGetD_default _ _ _ _ (by omega)
    · rw [g2]
      exact listGetD_default _ _ _ _ (by omega)

/-- Witness for C10 on concrete two-element inputs. -/
theorem C10_interleave_lon_first_witness :
    2 ≤ ([10, 20] : List Nat).length ∧ 2 ≤ ([30, 40] : List Nat).length ∧
      ((interleaveCoords [10, 20] [30, 40] 2).length = 2 * 2 ∧
        ∀ i, i < 2 →
          (interleaveCoords [10, 20] [30, 40] 2).getD (2 * i) 0 = ([30, 40] : List Nat).getD i 0 ∧
          (interleaveCoords [10, 20] [30, 40] 2).getD (2 * i + 1) 0 =
            ([10, 20] : List Nat).getD i 0) :=
  ⟨by decide, by decide, C10_interleave_lon_first [10, 20] [30, 40] 2 (by decide) (by decide)⟩

/-- Counterexample to claim C6: the decoder performs no check relating the
intensities to `maxValue`.  The 20-byte buffer below declares one sample with
header `maxValue = 0.0` (bit pattern 0) and stored intensity `1.0f` (bit
pattern `0x3F800000` = 1065353216, bytes `[0,0,128,63]`); it decodes
successfully, and its single intensity is not `≤ maxValue`. -/
theorem C6_counterexample :
    parseWeatherBinaryBuf [1, 0, 0, 0, 0, 0, 0, 0, 0, 0, 0, 0, 0, 0, 0, 0, 0, 0, 128, 63] =
        Except.ok (ParseResult.parsed ⟨1, 0, [0], [0], [1065353216]⟩) ∧
      f32scaled 0 = some 0 ∧
      f32scaled 1065353216 = some (2 ^ 149) ∧
      ¬ ∀ v ∈ [1065353216], f32leB v 0 = true := by
  set_option maxRecDepth 4000 in
  refine ⟨by decide, by decide, by decide, by decide⟩

/-- When both bit patterns are finite, `f32leB` is the integer comparison of
the scaled denotations. -/
theorem f32leB_some (a b : Nat) (x y : ℤ) (ha : f32scaled a = some x)
    (hb : f32scaled b = some y) : f32leB a b = decide (x ≤ y) := by
  unfold f32leB
  rw [ha, hb]

/-- When both bit patterns are finite, `f32ltB` is the strict integer
comparison of the scaled denotations. -/
theorem f32ltB_some (a b : Nat) (x y : ℤ) (ha : f32scaled a = some x)
    (hb : f32scaled b = some y) : f32ltB a b = decide (x < y) := by
  unfold f32ltB
  rw [ha, hb]

/-- The denotation only depends on the low 32 bits of the pattern. -/
theorem f32scaled_mod (w : Nat) : f32scaled (w % 4294967296) = f32scaled w := by
  have h : w % 4294967296 % 4294967296 = w % 4294967296 := by omega
  simp only [f32scaled, h]

/-- `f32leB` only depends on the low 32 bits of each pattern. -/
theorem f32leB_mod (a b : Nat) :
    f32leB (a % 4294967296) (b % 4294967296) = f32leB a b := by
  unfold f32leB
  rw [f32scaled_mod, f32scaled_mod]

/-- The running maximum of the modelled encoder dominates the accumulator and
every intensity it has folded over (all finite). -/
theorem maxValBits_fold (l : List Sample) :
    ∀ (acc : Nat) (x : ℤ), f32scaled acc = some x →
      (∀ s ∈ l, ∃ y : ℤ, f32scaled s.val = some y) →
      ∃ z : ℤ,
        f32scaled (List.foldl (fun a s => if f32ltB a s.val then s.val else a) acc l) =
            some z ∧
          x ≤ z ∧
          ∀ s ∈ l,
            f32leB s.val
                (List.foldl (fun a s => if f32ltB a s.val then s.val else a) acc l) =
              true := by
  induction l with
  | nil =>
    intro acc x hacc _
    exact ⟨x, hacc, le_refl x, by simp⟩
  | cons s l ih =>
    intro acc x hacc hall
    obtain ⟨y, hy⟩ := hall s (List.mem_cons_self s l)
    have hall' : ∀ u ∈ l, ∃ v : ℤ, f32scaled u.val = some v := fun u hu =>
      hall u (List.mem_cons_of_mem _ hu)
    simp only [List.foldl_cons]
    by_cases hlt : f32ltB acc s.val = true
    · rw [if_pos hlt]
      obtain ⟨z, hz, hyz, hrest⟩ := ih s.val y hy hall'
      have hxy : x < y := by
        rw [f32ltB_some acc s.val x y hacc hy] at hlt
        simpa using hlt
      refine ⟨z, hz, by omega, ?_⟩
      intro u hu
      rcases List.mem_cons.mp hu with h | h
      · rw [h, f32leB_some s.val _ y z hy hz]
        simpa using hyz
      · exact hrest u h
    · rw [if_neg hlt]
      obtain ⟨z, hz, hxz, hrest⟩ := ih acc x hacc hall'
      have hyx : y ≤ x := by
        rw [f32ltB_some acc s.val x y hacc hy] at hlt
        simp at hlt
        omega
      refine ⟨z, hz, hxz, ?_⟩
      intro u hu
      rcases List.mem_cons.mp hu with h | h
      · rw [h, f32leB_some s.val _ y z hy hz]
        simp
        omega
      · exact hrest u h

/-- The modelled encoder's `maxValue` dominates every input intensity. -/
theorem maxValBits_ge (samples : List Sample)
    (hall : ∀ s ∈ samples, ∃ y : ℤ, f32scaled s.val = some y) :
    ∃ z : ℤ, f32scaled (maxValBits samples) = some z ∧
      ∀ s ∈ samples, f32leB s.val (maxValBits samples) = true := by
  obtain ⟨z, hz, _, hrest⟩ := maxValBits_fold samples 0 0 rfl hall
  exact ⟨z, hz, hrest⟩

/-- Length of a serialized word block. -/
theorem flatten_write_length (ws : List Nat) :
    ((ws.map writeWord32LE).flatten).length = 4 * ws.length := by
  induction ws with
  | nil => rfl
  | cons w ws ih =>
    simp only [List.map_cons, List.flatten_cons, List.length_append, ih, writeWord32LE,
      List.length_cons, List.length_nil]
    omega

/-- Reading word `i` of a serialized word block recovers the word modulo
`2^32`. -/
theorem readWord32LE_flatten (ws : List Nat) :
    ∀ (rest : List Nat) (i : Nat), i < ws.length →
      readWord32LE ((ws.map writeWord32LE).flatten ++ rest) (4 * i) =
        ws.getD i 0 % 4294967296 := by
  induction ws with
  | nil =>
    intro rest i hi
    exact absurd hi (by simp)
  | cons w ws ih =>
    intro rest i hi
    simp only [List.map_cons, List.flatten_cons, List.append_assoc]
    cases i with
    | zero =>
      rw [Nat.mul_zero, readWord32LE_write]
      simp
    | succ i =>
      rw [show 4 * (i + 1) = (writeWord32LE w).length + 4 * i from by
          simp [writeWord32LE]
          omega,
        readWord32LE_append_right, List.getD_cons_succ]
      exact ih rest i (by simpa using hi)

/-- Length of the serialized latitude block. -/
theorem latBytes_length (samples : List Sample) :
    (latBytes samples).length = 4 * samples.length := by
  unfold latBytes
  rw [flatten_write_length]
  simp

/-- Length of the serialized longitude block. -/
theorem lonBytes_length (samples : List Sample) :
    (lonBytes samples).length = 4 * samples.length := by
  unfold lonBytes
  rw [flatten_write_length]
  simp

/-- Length of the serialized intensity block. -/
theorem valBytes_length (samples : List Sample) :
    (valBytes samples).length = 4 * samples.length := by
  unfold valBytes
  rw [flatten_write_length]
  simp

/-- The modelled encoder emits exactly `8 + 12*count` bytes. -/
theorem encodeWeather_length (samples : List Sample) :
    (encodeWeather samples).length = 8 + 12 * samples.length := by
  unfold encodeWeather
  simp only [List.length_append, latBytes_length, lonBytes_length, valBytes_length,
    writeWord32LE, List.length_cons, List.length_nil]
  omega

/-- The count field of an encoded buffer. -/
theorem encode_read_count (samples : List Sample) :
    readWord32LE (encodeWeather samples) 0 = samples.length % 4294967296 := by
  unfold encodeWeather
  simp only [List.append_assoc]
  exact readWord32LE_write _ _

/-- The `maxValue` field of an encoded buffer. -/
theorem encode_read_max (samples : List Sample) :
    readWord32LE (encodeWeather samples) 4 = maxValBits samples % 4294967296 := by
  unfold encodeWeather
  simp only [List.append_assoc]
  rw [show (4 : Nat) = (writeWord32LE samples.length).length + 0 from by
      simp [writeWord32LE],
    readWord32LE_append_right]
  exact readWord32LE_write _ _

/-- The `i`-th intensity word of an encoded buffer. -/
theorem encode_read_val (samples : List Sample) (i : Nat) (hi : i < samples.length) :
    readWord32LE (encodeWeather samples) (8 + samples.length * 4 * 2 + 4 * i) =
      (samples.map fun s => s.val).getD i 0 % 4294967296 := by
  unfold encodeWeather
  simp only [List.append_assoc]
  rw [show 8 + samples.length * 4 * 2 + 4 * i =
      (writeWord32LE samples.length).length +
        ((writeWord32LE (maxValBits samples)).length +
          ((latBytes samples).length + ((lonBytes samples).length + 4 * i))) from by
      simp [writeWord32LE, latBytes_length, lonBytes_length]
      omega,
    readWord32LE_append_right, readWord32LE_append_right, readWord32LE_append_right,
    readWord32LE_append_right]
  rw [show valBytes samples =
      ((samples.map fun s => s.val).map writeWord32LE).flatten ++ [] from by
    simp [valBytes]]
  exact readWord32LE_flatten _ [] i (by simpa using hi)

/-- Claim C6 as amended: the decoder itself enforces no relation between the
stored intensities and the stored `maxValue` (see the counterexample); the
bound is a producer-side guarantee.  For every buffer produced by the
spec-modelled encoder from finite-intensity samples (at most `2^32 - 1` of
them), the decoded result has every intensity `≤` its `maxValue`. -/
theorem C6_encoder_maxValue_bound (samples : List Sample)
    (hn : samples.length < 4294967296) (hne : samples ≠ [])
    (hfin : ∀ s ∈ samples, (∃ y : ℤ, f32scaled s.val = some y) ∧ s.val < 4294967296) :
    ∃ p : ParsedWeather,
      parseWeatherBinaryBuf (encodeWeather samples) = Except.ok (ParseResult.parsed p) ∧
        0 < p.count ∧ ∀ v ∈ p.vals, f32leB v p.maxVal = true := by
  have hlen : (encodeWeather samples).length = 8 + 12 * samples.length :=
    encodeWeather_length samples
  have hn0 : samples.length ≠ 0 := fun h => hne (List.length_eq_zero.mp h)
  have hread0 : readWord32LE (encodeWeather samples) 0 = samples.length := by
    rw [encode_read_count, Nat.mod_eq_of_lt hn]
  have hc : readWord32LE (encodeWeather samples) 0 ≠ 0 := by
    rw [hread0]
    exact hn0
  have hp := parse_eval_ok (encodeWeather samples) hc (by rw [hread0]; omega)
  refine ⟨_, hp, ?_, ?_⟩
  · show 0 < readWord32LE (encodeWeather samples) 0
    omega
  · intro v hv
    obtain ⟨i, hi, rfl⟩ := List.exists_of_mem_map hv
    rw [List.mem_range, hread0] at hi
    show f32leB
        (readWord32LE (encodeWeather samples)
          (8 + readWord32LE (encodeWeather samples) 0 * 4 * 2 + 4 * i))
        (readWord32LE (encodeWeather samples) 4) = true
    rw [hread0, encode_read_val samples i hi, encode_read_max, f32leB_mod]
    have hval_eq : (samples.map fun s => s.val).getD i 0 = (samples.get ⟨i, hi⟩).val := by
      simp [List.getD_eq_getElem?_getD, List.getElem?_map, List.getElem?_eq_getElem hi]
    obtain ⟨z, hz, hall2⟩ := maxValBits_ge samples (fun s hs => (hfin s hs).1)
    rw [hval_eq]
    exact hall2 _ (List.get_mem samples i hi)

/-- Witness for the amended C6 at a concrete one-sample input. -/
theorem C6_encoder_maxValue_bound_witness :
    ([⟨1, 2, 0⟩] : List Sample).length < 4294967296 ∧
      ([⟨1, 2, 0⟩] : List Sample) ≠ [] ∧
      (∀ s ∈ ([⟨1, 2, 0⟩] : List Sample),
        (∃ y : ℤ, f32scaled s.val = some y) ∧ s.val < 4294967296) ∧
      (∃ p : ParsedWeather,
        parseWeatherBinaryBuf (encodeWeather [⟨1, 2, 0⟩]) =
            Except.ok (ParseResult.parsed p) ∧
          0 < p.count ∧ ∀ v ∈ p.vals, f32leB v p.maxVal = true) :=
  ⟨by decide, by decide,
    by
      intro s hs
      rw [List.mem_singleton] at hs
      subst hs
      exact ⟨⟨0, by decide⟩, by decide⟩,
    C6_encoder_maxValue_bound [⟨1, 2, 0⟩] (by decide) (by decide)
      (by
        intro s hs
        rw [List.mem_singleton] at hs
        subst hs
        exact ⟨⟨0, by decide⟩, by decide⟩)⟩

end UnderTheCloud
